/-
Verification of the synthBTC simulation engine against its specification.

This file is a shallow embedding, in Lean 4, of the core of the synthBTC
repository: the Monte Carlo batch engine (modules/monteCarloEngine.js), the
statistics helpers (modules/utils.js), the price reconciliation
(modules/priceFetcher.js), the run orchestration and persistence
(the synthBTC class: generateSimulations / getSimulationData / init), the
CSV row store (modules/csvHandler.js) and the by-ids query
(modules/apiCore.js).

Modelling conventions:
* JavaScript numbers are modelled as ℚ wherever the code only adds,
  multiplies, divides and compares (validation, bookkeeping, percentage
  changes), and as ℝ where the code takes square roots, logarithms,
  exponentials or cosines (Math.sqrt / Math.log / Math.exp / Math.cos in
  utils.js calculateTargetPrice and in the sampler).  Floating-point
  rounding error is out of scope; the claims under study are structural or
  exact-algebraic.
* Filesystem state (the private data directory and core.csv) is carried in
  an explicit record `SynthState`; writing a CSV file becomes a pure update
  of that record.  Directory listings are abstracted to the list of parsed
  numeric suffixes of the matching files, because every consumer
  (getLastFileIndex, determineNextFileIndex) first applies the identical
  filter-and-parse step.
* Randomness is an explicit oracle: the batch engine receives a function
  giving the terminal price of simulation `k` of batch `i`; the one-path
  sampler receives the stream of Math.random() draws.
* A JavaScript `throw` is an `Except.error`; mutations of the class statics
  performed before the throw are retained in the returned state, exactly as
  static fields survive an exception in the source.
-/
import Mathlib

/-! ## modules/priceFetcher.js -/

namespace PriceFetcher

/-- `getCurrentPrice` from modules/priceFetcher.js: each feed either
delivers a price or fails (`none`, the source returns null after catching);
both available → average, one available → that one, none → throw. -/
def getCurrentPrice (priceCoinGecko priceEtherscan : Option ℚ) : Except String ℚ :=
  match priceCoinGecko, priceEtherscan with
  | some a, some b => .ok ((a + b) / 2)
  | some a, none => .ok a
  | none, some b => .ok b
  | none, none => .error "Failed to fetch BTC price from both sources."

end PriceFetcher

/-! ## modules/utils.js -/

namespace Utils

/-- `calculateChangePercentage` from modules/utils.js: the numeric value
`(simulatedPrice - currentPrice) / currentPrice * 100`.  The source then
formats it as a signed string with two decimals; the string formatting is
not modelled (no claim depends on it). -/
def calculateChangePercentage {α : Type} [Field α] (simulatedPrice currentPrice : α) : α :=
  (simulatedPrice - currentPrice) / currentPrice * 100

/-- `calculateTargetPrice` from modules/utils.js: mean of the prices plus
the square root of the population variance (`reduce` sums modelled by
`foldl`, `Math.pow(x, 2)` by `x ^ 2`, `Math.sqrt` by `Real.sqrt`). -/
noncomputable def calculateTargetPrice (prices : List ℝ) : ℝ :=
  let mean := prices.foldl (fun acc p => acc + p) 0 / (prices.length : ℝ)
  let variance := prices.foldl (fun acc p => acc + (p - mean) ^ 2) 0 / (prices.length : ℝ)
  let stdDev := Real.sqrt variance
  mean + stdDev

/-- `getLastFileIndex` from modules/utils.js, used at startup.  The
directory listing is abstracted to the list of parsed numeric suffixes of
the files matching `PREFIX_(\d+).csv`: if no file matches the function
returns 0, otherwise `Math.max(...indices) + 1`. -/
def getLastFileIndex (indices : List ℕ) : ℕ :=
  if indices = [] then 0
  else indices.foldl max 0 + 1

/-- `determineNextFileIndex` from modules/utils.js, used before each run.
Same abstraction of the directory listing as `getLastFileIndex`: with at
least one matching file it returns `Math.max(...indices) + 1`, otherwise 1. -/
def determineNextFileIndex (indices : List ℕ) : ℕ :=
  if indices.length > 0 then indices.foldl max 0 + 1 else 1

end Utils

/-! ## modules/monteCarloEngine.js -/

namespace MonteCarloEngine

/-- JavaScript comparison `x <= 0` where `x` may be `null` (a never-fetched
price): `null <= 0` is true in JavaScript because null coerces to 0. -/
def jsLeZero (x : Option ℚ) : Bool :=
  match x with
  | none => true
  | some p => decide (p ≤ 0)

/-- `validateInputs` from modules/monteCarloEngine.js, checks in source
order: current price, simulation count, volatility, days; each must be
strictly positive or the function throws. -/
def validateInputs (currentPrice : Option ℚ) (totalSimulations : ℕ)
    (decimalVolatility : ℚ) (simulationDays : ℕ) : Except String Unit :=
  if jsLeZero currentPrice then .error "Current price must be greater than 0"
  else if totalSimulations ≤ 0 then .error "Simulations must be greater than 0"
  else if decimalVolatility ≤ 0 then .error "Volatility must be greater than 0"
  else if simulationDays ≤ 0 then .error "Days must be greater than 0"
  else .ok ()

/-- `simulatePrices` from modules/monteCarloEngine.js: validates its
inputs, then produces one terminal price per requested simulation.  The
random outcomes are supplied by the oracle `sample` (batch index, slot
index ↦ terminal price), standing for the Turbit-parallel evaluation of the
sampler; `Array.from({length: n}, ...)` becomes mapping over `List.range n`. -/
def simulatePrices (sample : ℕ → ℕ → ℚ) (batchIdx : ℕ) (currentPrice : Option ℚ)
    (totalSimulations : ℕ) (decimalVolatility : ℚ) (simulationDays : ℕ) :
    Except String (List ℚ) := do
  let _ ← validateInputs currentPrice totalSimulations decimalVolatility simulationDays
  pure ((List.range totalSimulations).map (sample batchIdx))

/-- `Math.ceil(totalSimulations / 5000)` from `executeFullSimulation`
(`desiredBatchSize` is the constant 5000). -/
def batchCount (totalSimulations : ℕ) : ℕ :=
  (totalSimulations + 4999) / 5000

/-- Size of batch `i` in `executeFullSimulation`: the last batch takes the
remainder `totalSimulations - i * 5000`, every other batch takes 5000. -/
def batchSize (totalSimulations i : ℕ) : ℕ :=
  if i = batchCount totalSimulations - 1 then totalSimulations - i * 5000 else 5000

/-- `executeFullSimulation` from modules/monteCarloEngine.js: runs
`simulatePrices` once per batch, appending each batch result to the
accumulated list (`allPrices = allPrices.concat(batchPrices)`). -/
def executeFullSimulation (sample : ℕ → ℕ → ℚ) (currentPrice : Option ℚ)
    (totalSimulations : ℕ) (decimalVolatility : ℚ) (simulationDays : ℕ) :
    Except String (List ℚ) :=
  (List.range (batchCount totalSimulations)).foldlM
    (fun allPrices i => do
      let batchPrices ← simulatePrices sample i currentPrice
        (batchSize totalSimulations i) decimalVolatility simulationDays
      pure (allPrices ++ batchPrices))
    []

end MonteCarloEngine

/-! ## The synthBTC class (inlined in src/research-script/README.md) -/

namespace synthBTC

/-- One data row of a raw-output file `source_simulation_<i>.csv`, written by
`generateSimulations`: `simulation_id,price,percentage_change`.  The
percentage change is kept as its numeric value (see
`Utils.calculateChangePercentage`). -/
structure RawRow where
  simulation_id : ℕ
  price : ℤ
  percentage_change : ℚ
  deriving DecidableEq

/-- One row of the run ledger private/core.csv, in the column order of
`logHeader`.  The `timestamp` and `processing_time` columns are wall-clock
readings (`Date.now()`), irrelevant to every claim, and are not modelled. -/
structure LogRow where
  simulation_id : ℕ
  current_price : ℤ
  highest_price : ℤ
  target_price : ℤ
  average_price : ℤ
  lowest_price : ℤ
  simulated_data : ℕ
  total_simulated : ℕ
  data_source : ℕ
  deriving DecidableEq

/-- One `price`/`changePercentage` pair of the overview built by
`getUpdatedOverview`.  The change percentage is real-valued because the
target statistic involves a square root. -/
structure PricePoint where
  price : ℤ
  changePercentage : ℝ

/-- The overview object built by `getUpdatedOverview`. -/
structure Overview where
  current : ℤ
  highest : PricePoint
  target : PricePoint
  average : PricePoint
  lowest : PricePoint

/-- The `details` part of the object returned by `generateSimulations`
(`executionTime`, `currentYear`, `processingTime` and `dataSize` are
wall-clock or filesystem-size readings, irrelevant to every claim, and are
not modelled). -/
structure OutputDetails where
  simulatedData : ℕ
  totalSimulations : ℕ
  totalSimulationDays : ℕ
  dataSource : ℕ
  deriving DecidableEq

/-- The object returned by `generateSimulations` and cached in
`latestOutput`. -/
structure Output where
  status : String
  overview : Overview
  details : OutputDetails

/-- The mutable static state of the `synthBTC` class, together with the
filesystem it owns: `dataFiles` is the private data directory (pairs of
numeric file suffix and rows of `source_simulation_<i>.csv`), `coreRows`
is private/core.csv (`none` while the file does not exist). -/
structure SynthState where
  lastKnownPrice : Option ℚ
  connectionLost : Bool
  fileIndex : ℕ
  simulatedData : ℕ
  simulationCounter : ℕ
  simulationStatus : String
  latestOutput : Option Output
  dataFiles : List (ℕ × List RawRow)
  coreRows : Option (List LogRow)

/-- The initial values of the static fields of the `synthBTC` class
(matching the declarations at the top of the class). -/
def initialState : SynthState where
  lastKnownPrice := none
  connectionLost := false
  fileIndex := 1
  simulatedData := 0
  simulationCounter := 0
  simulationStatus := "OK"
  latestOutput := none
  dataFiles := []
  coreRows := none

/-- A simulation request, as read from config.json and passed to
`generateSimulations`.  `turbitPower` only tunes parallelism and is unused
by the sequential model. -/
structure Request where
  totalSimulations : ℕ
  volatilityPercentage : ℚ
  simulationDays : ℕ
  turbitPower : ℕ

/-- `currentPriceBTC`: tries `PriceFetcher.getCurrentPrice`; on success
stores the fresh price, on failure only flags the connection as lost.  In
both cases the (possibly stale, possibly null) `lastKnownPrice` is what the
caller receives. -/
def currentPriceBTC (priceCoinGecko priceEtherscan : Option ℚ) (s : SynthState) :
    SynthState × Option ℚ :=
  match PriceFetcher.getCurrentPrice priceCoinGecko priceEtherscan with
  | .ok p => ({ s with lastKnownPrice := some p, connectionLost := false }, some p)
  | .error _ => ({ s with connectionLost := true }, s.lastKnownPrice)

/-- `lowestPrice` in `generateSimulations`:
`allPrices.reduce((min, p) => p < min ? p : min, allPrices[0])`.
`allPrices[0]` of an empty array is `undefined` in JavaScript and the
reduce then returns it unchanged; the model uses the default 0, a junk
value no claim depends on (the engine only reaches this point with a
non-empty array unless the requested count was non-positive). -/
def lowestPrice {α : Type} [LinearOrderedField α] (allPrices : List α) : α :=
  allPrices.foldl (fun m p => if p < m then p else m) (allPrices.headD 0)

/-- `highestPrice` in `generateSimulations`:
`allPrices.reduce((max, p) => p > max ? p : max, allPrices[0])`. -/
def highestPrice {α : Type} [LinearOrderedField α] (allPrices : List α) : α :=
  allPrices.foldl (fun m p => if m < p then p else m) (allPrices.headD 0)

/-- `averagePrice` in `generateSimulations`:
`allPrices.reduce((acc, p) => acc + p, 0) / allPrices.length`. -/
def averagePrice {α : Type} [LinearOrderedField α] (allPrices : List α) : α :=
  allPrices.foldl (fun acc p => acc + p) 0 / (allPrices.length : α)

/-- `getUpdatedOverview`: rounds each statistic and pairs it with its
percentage change against the current price (`Math.round` is
`round : ℚ → ℤ`, both being floor of the value plus one half). -/
noncomputable def getUpdatedOverview (currentPrice : ℚ) (highest : ℚ) (target : ℝ)
    (average lowest : ℚ) : Overview where
  current := round currentPrice
  highest := ⟨round highest, Utils.calculateChangePercentage (highest : ℝ) (currentPrice : ℝ)⟩
  target := ⟨round target, Utils.calculateChangePercentage target (currentPrice : ℝ)⟩
  average := ⟨round average, Utils.calculateChangePercentage (average : ℝ) (currentPrice : ℝ)⟩
  lowest := ⟨round lowest, Utils.calculateChangePercentage (lowest : ℝ) (currentPrice : ℝ)⟩

/-- The raw-output rows written by the chunked loop of
`generateSimulations`: chunk `i` is `allPrices.slice(i*5000, (i+1)*5000)`
and each of its rows is `(index + 1, Math.round(price), change%)` where
`index` is the position inside the chunk (`slicedPrices.forEach((price,
index) => ...)`); the chunks are appended to the file in order. -/
def rawRows (totalSimulations : ℕ) (allPrices : List ℚ) (currentPrice : ℚ) :
    List RawRow :=
  (List.range ((totalSimulations + 4999) / 5000)).foldl
    (fun acc i =>
      acc ++ ((allPrices.drop (i * 5000)).take 5000).mapIdx
        (fun index price =>
          ⟨index + 1, round price, Utils.calculateChangePercentage price currentPrice⟩))
    []

/-- `CSVHandler.writeCSV` on the data directory: `fs.writeFileSync`
truncates an existing file of the same name, otherwise creates it at the
end of the directory. -/
def writeDataFile (files : List (ℕ × List RawRow)) (idx : ℕ) (rows : List RawRow) :
    List (ℕ × List RawRow) :=
  if (files.map Prod.fst).contains idx then
    files.map (fun f => if f.1 = idx then (idx, rows) else f)
  else
    files ++ [(idx, rows)]

/-- The tail of `generateSimulations` that runs once the batched engine has
returned its price array (source lines from the statistics reduces through
the core.csv append): computes the statistics, bumps the counters, writes
the raw-output file and the ledger row, restores the status to OK and
builds the returned overview object.  Split out of the orchestrator so
each run path is a separate definition; the body is the source's, line for
line. -/
noncomputable def finishRun (req : Request) (s2 : SynthState)
    (currentPrice : Option ℚ) (allPrices : List ℚ) : SynthState × Output :=
    -- Math.round(null) is 0 in JavaScript; a null current price can only
    -- reach this point when the requested count was non-positive (zero
    -- batches, so validateInputs never ran), and then every value derived
    -- from it is junk that no claim depends on.
    let cur : ℚ := currentPrice.getD 0
    let lowest := lowestPrice allPrices
    let highest := highestPrice allPrices
    let average := averagePrice allPrices
    let target := Utils.calculateTargetPrice (allPrices.map (fun p => (p : ℝ)))
    let s3 := { s2 with
      simulatedData := s2.simulatedData + req.totalSimulations
      simulationCounter := s2.simulationCounter + 1 }
    let fileIndex := Utils.determineNextFileIndex (s3.dataFiles.map Prod.fst)
    let s4 := { s3 with
      fileIndex := fileIndex
      dataFiles := writeDataFile s3.dataFiles fileIndex
        (rawRows req.totalSimulations allPrices cur) }
    let logRow : LogRow :=
      { simulation_id := s4.simulationCounter
        current_price := round cur
        highest_price := round highest
        target_price := round target
        average_price := round average
        lowest_price := round lowest
        simulated_data := req.totalSimulations
        total_simulated := s4.simulatedData
        data_source := fileIndex }
    let s5 := { s4 with coreRows := some (s4.coreRows.getD [] ++ [logRow]) }
    let s6 := { s5 with simulationStatus := "OK" }
    let output : Output :=
      { status := s6.simulationStatus
        overview := getUpdatedOverview cur highest target average lowest
        details :=
          { simulatedData := s6.simulatedData
            totalSimulations := s6.simulationCounter
            totalSimulationDays := req.simulationDays
            dataSource := fileIndex } }
    (s6, output)

/-- `generateSimulations`, the orchestrator: sets the status to PROCESSING,
fetches the reference price, runs the batched engine and finishes the run
(see `finishRun`).  A throw surfaces as `Except.error` with the mutations
made so far retained in the returned state. -/
noncomputable def generateSimulations (req : Request)
    (priceCoinGecko priceEtherscan : Option ℚ) (sample : ℕ → ℕ → ℚ)
    (s : SynthState) : SynthState × Except String Output :=
  let s1 := { s with simulationStatus := "PROCESSING" }
  let fetched := currentPriceBTC priceCoinGecko priceEtherscan s1
  let s2 := fetched.1
  let currentPrice := fetched.2
  let decimalVolatility := req.volatilityPercentage / 100
  match MonteCarloEngine.executeFullSimulation sample currentPrice
      req.totalSimulations decimalVolatility req.simulationDays with
  | .error e => (s2, .error e)
  | .ok allPrices =>
    let finished := finishRun req s2 currentPrice allPrices
    (finished.1, .ok finished.2)

/-- `getSimulationData`: runs `generateSimulations` and, on success, caches
the result in `latestOutput`.  A throw propagates and leaves the cache
untouched. -/
noncomputable def getSimulationData (req : Request)
    (priceCoinGecko priceEtherscan : Option ℚ) (sample : ℕ → ℕ → ℚ)
    (s : SynthState) : SynthState × Except String Output :=
  match generateSimulations req priceCoinGecko priceEtherscan sample s with
  | (s1, .ok output) => ({ s1 with latestOutput := some output }, .ok output)
  | (s1, .error e) => (s1, .error e)

end synthBTC

/-! ## modules/csvHandler.js and modules/apiCore.js -/

namespace CSVHandler

/-- `readCoreSimulations` from modules/csvHandler.js: throws when
private/core.csv does not exist, otherwise parses its data rows (modelled
directly as the stored `LogRow` list). -/
def readCoreSimulations (coreRows : Option (List synthBTC.LogRow)) :
    Except String (List synthBTC.LogRow) :=
  match coreRows with
  | none => .error "Core log file does not exist."
  | some rows => .ok rows

end CSVHandler

namespace APICore

/-- `getSimulationsByIds` from modules/apiCore.js: reads the ledger, then
maps each requested id to its row when `id > 0 && id <= simulations.length`
(rows are 1-based) and to the error entry `Simulation <id> not available`
otherwise. -/
def getSimulationsByIds (ids : List ℤ) (coreRows : Option (List synthBTC.LogRow)) :
    Except String (List (synthBTC.LogRow ⊕ String)) := do
  let simulations ← CSVHandler.readCoreSimulations coreRows
  pure (ids.map (fun id =>
    if h : 0 < id ∧ id ≤ (simulations.length : ℤ) then
      Sum.inl (simulations.get ⟨(id - 1).toNat, by omega⟩)
    else
      Sum.inr ("Simulation " ++ toString id ++ " not available")))

end APICore

/-! ## The worker-side sampler of modules/monteCarloEngine.js

The function shipped to each Turbit worker draws from `Math.random()`; the
draw stream is the explicit argument `u` (values in `[0,1)`), together with
the guarantee `h` that a nonzero draw always lies ahead, without which the
re-roll loops `while (u === 0) u = Math.random()` would not terminate. -/

namespace MonteCarloEngine

/-- Index of the draw selected by a re-roll loop started at position `i`:
the first position `j ≥ i` with `u j ≠ 0`. -/
noncomputable def nextNonzeroDraw (u : ℕ → ℝ) (h : ∀ i, ∃ j, i ≤ j ∧ u j ≠ 0)
    (i : ℕ) : ℕ :=
  letI : DecidablePred fun j => i ≤ j ∧ u j ≠ 0 := Classical.decPred _
  Nat.find (h i)

/-- `gaussianRandom` from the worker function of `simulatePrices`: re-rolls
zero draws for `u` and `v`, then applies the Box-Muller transform
`sqrt(-2 ln u) * cos(2 pi v)`.  Returns the variate together with the
position of the first unconsumed draw. -/
noncomputable def gaussianRandom (u : ℕ → ℝ) (h : ∀ i, ∃ j, i ≤ j ∧ u j ≠ 0)
    (i : ℕ) : ℝ × ℕ :=
  let j := nextNonzeroDraw u h i
  let k := nextNonzeroDraw u h (j + 1)
  (Real.sqrt (-2 * Real.log (u j)) * Real.cos (2 * Real.pi * u k), k + 1)

/-- The day loop of the worker function: `for (let i = 0; i < simulationDays;
i++) price *= Math.exp(decimalVolatility * gaussianRandom() / Math.sqrt(simulationDays))`,
with the remaining day count as the recursion measure and the draw position
threaded through. -/
noncomputable def runDays (u : ℕ → ℝ) (h : ∀ i, ∃ j, i ≤ j ∧ u j ≠ 0)
    (decimalVolatility : ℝ) (simulationDays : ℕ) :
    ℕ → ℝ × ℕ → ℝ × ℕ
  | 0, st => st
  | n + 1, st =>
    let g := gaussianRandom u h st.2
    runDays u h decimalVolatility simulationDays n
      (st.1 * Real.exp (decimalVolatility * g.1 / Real.sqrt simulationDays), g.2)

/-- One simulated terminal price: start at `currentPrice`, apply all
`simulationDays` daily shocks.  The function is pure: its value depends
only on its arguments (the draw stream included), and it has no effects. -/
noncomputable def simulateOnePrice (u : ℕ → ℝ) (h : ∀ i, ∃ j, i ≤ j ∧ u j ≠ 0)
    (currentPrice decimalVolatility : ℝ) (simulationDays : ℕ) : ℝ :=
  (runDays u h decimalVolatility simulationDays simulationDays (currentPrice, 0)).1

/-- Position of the draw stream before the `d`-th Gaussian variate of a
path is produced (the path starts reading at position 0). -/
noncomputable def gaussIndex (u : ℕ → ℝ) (h : ∀ i, ∃ j, i ≤ j ∧ u j ≠ 0) : ℕ → ℕ
  | 0 => 0
  | d + 1 => (gaussianRandom u h (gaussIndex u h d)).2

/-- The `d`-th Gaussian variate drawn along a path. -/
noncomputable def gaussSeq (u : ℕ → ℝ) (h : ∀ i, ∃ j, i ≤ j ∧ u j ≠ 0) (d : ℕ) : ℝ :=
  (gaussianRandom u h (gaussIndex u h d)).1

/-- Position of the first uniform draw consumed by the `d`-th Gaussian
variate (after re-rolling zeros). -/
noncomputable def fstDraw (u : ℕ → ℝ) (h : ∀ i, ∃ j, i ≤ j ∧ u j ≠ 0) (d : ℕ) : ℕ :=
  nextNonzeroDraw u h (gaussIndex u h d)

/-- Position of the second uniform draw consumed by the `d`-th Gaussian
variate (after re-rolling zeros). -/
noncomputable def sndDraw (u : ℕ → ℝ) (h : ∀ i, ∃ j, i ≤ j ∧ u j ≠ 0) (d : ℕ) : ℕ :=
  nextNonzeroDraw u h (fstDraw u h d + 1)

end MonteCarloEngine

/-! ## Spec-side definitions

The following definitions are NOT translations of the source; they spell
out, word for word, the quantities named by the specification (minimum,
maximum, arithmetic mean, population standard deviation), to be compared
with the source-derived aggregator above. -/

namespace SpecSide

/-- The arithmetic mean of a list of prices, as the spec words it. -/
noncomputable def specMean (prices : List ℝ) : ℝ :=
  prices.sum / (prices.length : ℝ)

/-- The population variance of a list of prices: mean squared deviation
from the mean (divisor is the list length, not length minus one). -/
noncomputable def specPopulationVariance (prices : List ℝ) : ℝ :=
  ((prices.map (fun x => (x - specMean prices) ^ 2)).sum) / (prices.length : ℝ)

/-- The population standard deviation of a list of prices. -/
noncomputable def specPopulationStdDev (prices : List ℝ) : ℝ :=
  Real.sqrt (specPopulationVariance prices)

end SpecSide

/-! ## The run-log invariant of the spec

`RunLogInvariant` states, of an engine state, exactly the ledger
properties of the claims: the persisted run ids are the consecutive
integers 1, 2, ..., rows.length (strictly increasing, gapless), every
row's cumulative count is the sum of the per-run counts up to and
including that row (equivalently, the previous row's cumulative count
plus this row's own count), and the in-memory counters agree with the
ledger. -/

namespace synthBTC

/-- The ledger invariant: consecutive gapless ids, prefix-sum cumulative
counts, and counters consistent with the persisted rows. -/
def RunLogInvariant (s : SynthState) : Prop :=
  s.simulationCounter = (s.coreRows.getD []).length ∧
  s.simulatedData = ((s.coreRows.getD []).map LogRow.simulated_data).sum ∧
  ∀ k (h : k < (s.coreRows.getD []).length),
    ((s.coreRows.getD [])[k]).simulation_id = k + 1 ∧
    ((s.coreRows.getD [])[k]).total_simulated =
      (((s.coreRows.getD []).take (k + 1)).map LogRow.simulated_data).sum

/-- A state whose price source already succeeded once (a stale price is
cached) but whose ledger is still empty; used to exercise the
feed-failure path. -/
def staleState : SynthState :=
  { initialState with lastKnownPrice := some 100 }

/-- Concrete ledger rows used to exercise the by-ids query. -/
def demoRow (n : ℕ) : LogRow :=
  { simulation_id := n
    current_price := 50000
    highest_price := 61000
    target_price := 56000
    average_price := 52000
    lowest_price := 43000
    simulated_data := 10000
    total_simulated := 10000 * n
    data_source := n }

end synthBTC

/-! ## Helper lemmas -/

lemma ite_lt_eq_min {α : Type} [LinearOrder α] (m p : α) :
    (if p < m then p else m) = min m p := by
  rcases lt_or_le p m with h | h
  · simp [if_pos h, min_eq_right h.le]
  · simp [if_neg (not_lt.mpr h), min_eq_left h]

lemma ite_lt_eq_max {α : Type} [LinearOrder α] (m p : α) :
    (if m < p then p else m) = max m p := by
  rcases lt_or_le m p with h | h
  · simp [if_pos h, max_eq_right h.le]
  · simp [if_neg (not_lt.mpr h), max_eq_left h]

lemma foldl_min_le_init {α : Type} [LinearOrder α] :
    ∀ (l : List α) (a : α), l.foldl min a ≤ a := by
  intro l
  induction l with
  | nil => simp
  | cons p t ih => intro a; exact le_trans (ih (min a p)) (min_le_left a p)

lemma foldl_min_le_of_mem {α : Type} [LinearOrder α] :
    ∀ (l : List α) (a x : α), x ∈ l → l.foldl min a ≤ x := by
  intro l
  induction l with
  | nil => intro a x hx; cases hx
  | cons p t ih =>
    intro a x hx
    rcases List.mem_cons.mp hx with rfl | hx
    · exact le_trans (foldl_min_le_init t (min a x)) (min_le_right a x)
    · exact ih (min a p) x hx

lemma foldl_min_eq_or_mem {α : Type} [LinearOrder α] :
    ∀ (l : List α) (a : α), l.foldl min a = a ∨ l.foldl min a ∈ l := by
  intro l
  induction l with
  | nil => intro a; left; rfl
  | cons p t ih =>
    intro a
    rcases ih (min a p) with h | h
    · rcases min_choice a p with hm | hm
      · left; rw [List.foldl_cons, h, hm]
      · right; rw [List.foldl_cons, h, hm]; exact List.mem_cons_self p t
    · right; exact List.mem_cons_of_mem p h

lemma le_foldl_max_init {α : Type} [LinearOrder α] :
    ∀ (l : List α) (a : α), a ≤ l.foldl max a := by
  intro l
  induction l with
  | nil => simp
  | cons p t ih => intro a; exact le_trans (le_max_left a p) (ih (max a p))

lemma le_foldl_max_of_mem {α : Type} [LinearOrder α] :
    ∀ (l : List α) (a x : α), x ∈ l → x ≤ l.foldl max a := by
  intro l
  induction l with
  | nil => intro a x hx; cases hx
  | cons p t ih =>
    intro a x hx
    rcases List.mem_cons.mp hx with rfl | hx
    · exact le_trans (le_max_right a x) (le_foldl_max_init t (max a x))
    · exact ih (max a p) x hx

lemma foldl_max_eq_or_mem {α : Type} [LinearOrder α] :
    ∀ (l : List α) (a : α), l.foldl max a = a ∨ l.foldl max a ∈ l := by
  intro l
  induction l with
  | nil => intro a; left; rfl
  | cons p t ih =>
    intro a
    rcases ih (max a p) with h | h
    · rcases max_choice a p with hm | hm
      · left; rw [List.foldl_cons, h, hm]
      · right; rw [List.foldl_cons, h, hm]; exact List.mem_cons_self p t
    · right; exact List.mem_cons_of_mem p h

lemma foldl_add_map_eq {α β : Type} [AddCommMonoid β] (f : α → β) :
    ∀ (l : List α) (c : β), l.foldl (fun acc p => acc + f p) c = c + (l.map f).sum := by
  intro l
  induction l with
  | nil => intro c; simp
  | cons p t ih => intro c; simp [ih]; rw [← add_assoc]

lemma synthBTC.lowestPrice_eq_foldl_min {α : Type} [LinearOrderedField α] (l : List α) :
    synthBTC.lowestPrice l = l.foldl min (l.headD 0) := by
  unfold synthBTC.lowestPrice
  congr 1
  funext m p
  exact ite_lt_eq_min m p

lemma synthBTC.highestPrice_eq_foldl_max {α : Type} [LinearOrderedField α] (l : List α) :
    synthBTC.highestPrice l = l.foldl max (l.headD 0) := by
  unfold synthBTC.highestPrice
  congr 1
  funext m p
  exact ite_lt_eq_max m p

lemma synthBTC.lowestPrice_mem {α : Type} [LinearOrderedField α] (l : List α)
    (h : l ≠ []) : synthBTC.lowestPrice l ∈ l := by
  rw [synthBTC.lowestPrice_eq_foldl_min]
  rcases foldl_min_eq_or_mem l (l.headD 0) with h1 | h1
  · rw [h1]
    rcases l with _ | ⟨p, t⟩
    · exact absurd rfl h
    · exact List.mem_cons_self p t
  · exact h1

lemma synthBTC.lowestPrice_le {α : Type} [LinearOrderedField α] (l : List α)
    (x : α) (hx : x ∈ l) : synthBTC.lowestPrice l ≤ x := by
  rw [synthBTC.lowestPrice_eq_foldl_min]
  exact foldl_min_le_of_mem l (l.headD 0) x hx

lemma synthBTC.highestPrice_mem {α : Type} [LinearOrderedField α] (l : List α)
    (h : l ≠ []) : synthBTC.highestPrice l ∈ l := by
  rw [synthBTC.highestPrice_eq_foldl_max]
  rcases foldl_max_eq_or_mem l (l.headD 0) with h1 | h1
  · rw [h1]
    rcases l with _ | ⟨p, t⟩
    · exact absurd rfl h
    · exact List.mem_cons_self p t
  · exact h1

lemma synthBTC.le_highestPrice {α : Type} [LinearOrderedField α] (l : List α)
    (x : α) (hx : x ∈ l) : x ≤ synthBTC.highestPrice l := by
  rw [synthBTC.highestPrice_eq_foldl_max]
  exact le_foldl_max_of_mem l (l.headD 0) x hx

lemma synthBTC.averagePrice_eq_sum_div {α : Type} [LinearOrderedField α] (l : List α) :
    synthBTC.averagePrice l = l.sum / (l.length : α) := by
  unfold synthBTC.averagePrice
  rw [show l.foldl (fun acc p => acc + p) 0 = 0 + (l.map id).sum from foldl_add_map_eq id l 0]
  simp

lemma Utils.calculateTargetPrice_eq (l : List ℝ) :
    Utils.calculateTargetPrice l = SpecSide.specMean l + SpecSide.specPopulationStdDev l := by
  unfold Utils.calculateTargetPrice SpecSide.specPopulationStdDev
    SpecSide.specPopulationVariance SpecSide.specMean
  simp only []
  rw [show l.foldl (fun acc p => acc + p) 0 = 0 + (l.map id).sum from foldl_add_map_eq id l 0]
  rw [foldl_add_map_eq (fun p => (p - (0 + (l.map id).sum) / (l.length : ℝ)) ^ 2) l 0]
  simp

lemma synthBTC.lowestPrice_le_averagePrice {α : Type} [LinearOrderedField α]
    (l : List α) (h : l ≠ []) : synthBTC.lowestPrice l ≤ synthBTC.averagePrice l := by
  have hn : 0 < (l.length : α) := by
    have := List.length_pos.mpr h
    exact_mod_cast this
  rw [synthBTC.averagePrice_eq_sum_div, le_div_iff₀ hn]
  have := List.card_nsmul_le_sum l (synthBTC.lowestPrice l)
    (fun x hx => synthBTC.lowestPrice_le l x hx)
  rw [nsmul_eq_mul] at this
  linarith [this]

lemma synthBTC.averagePrice_le_highestPrice {α : Type} [LinearOrderedField α]
    (l : List α) (h : l ≠ []) : synthBTC.averagePrice l ≤ synthBTC.highestPrice l := by
  have hn : 0 < (l.length : α) := by
    have := List.length_pos.mpr h
    exact_mod_cast this
  rw [synthBTC.averagePrice_eq_sum_div, div_le_iff₀ hn]
  have := List.sum_le_card_nsmul l (synthBTC.highestPrice l)
    (fun x hx => synthBTC.le_highestPrice l x hx)
  rw [nsmul_eq_mul] at this
  linarith [this]

/-! ## Claims -/

/-- Claim C5: for every non-empty array of terminal prices, the aggregator
computes `lowest` as the minimum, `highest` as the maximum, `average` as
the arithmetic mean, and `target` as that mean plus one population
standard deviation of the array. -/
theorem claim_C5_aggregator_matches_spec :
    (∀ l : List ℚ, l ≠ [] →
      (synthBTC.lowestPrice l ∈ l ∧ ∀ x ∈ l, synthBTC.lowestPrice l ≤ x) ∧
      (synthBTC.highestPrice l ∈ l ∧ ∀ x ∈ l, x ≤ synthBTC.highestPrice l) ∧
      synthBTC.averagePrice l = l.sum / (l.length : ℚ)) ∧
    (∀ r : List ℝ, r ≠ [] →
      Utils.calculateTargetPrice r = SpecSide.specMean r + SpecSide.specPopulationStdDev r) := by
  constructor
  · intro l h
    exact ⟨⟨synthBTC.lowestPrice_mem l h, fun x hx => synthBTC.lowestPrice_le l x hx⟩,
      ⟨synthBTC.highestPrice_mem l h, fun x hx => synthBTC.le_highestPrice l x hx⟩,
      synthBTC.averagePrice_eq_sum_div l⟩
  · intro r _
    exact Utils.calculateTargetPrice_eq r

/-- Witness for C5 at the concrete lists `[3, 1, 2] : List ℚ` and
`[2] : List ℝ`. -/
theorem claim_C5_witness :
    (([3, 1, 2] : List ℚ) ≠ [] ∧
      synthBTC.averagePrice ([3, 1, 2] : List ℚ) =
        ([3, 1, 2] : List ℚ).sum / (([3, 1, 2] : List ℚ).length : ℚ)) ∧
    (([2] : List ℝ) ≠ [] ∧
      Utils.calculateTargetPrice [2] =
        SpecSide.specMean [2] + SpecSide.specPopulationStdDev [2]) :=
  ⟨⟨by decide, (claim_C5_aggregator_matches_spec.1 [3, 1, 2] (by decide)).2.2⟩,
    ⟨by simp, claim_C5_aggregator_matches_spec.2 [2] (by simp)⟩⟩

/-- Claim C6: for every non-empty array of terminal prices the statistics
satisfy `lowest ≤ average ≤ highest` and `target ≥ average`, and for a
singleton array the population standard deviation is 0, so the target
equals the average. -/
theorem claim_C6_order_statistics :
    ∀ l : List ℝ, l ≠ [] →
      synthBTC.lowestPrice l ≤ synthBTC.averagePrice l ∧
      synthBTC.averagePrice l ≤ synthBTC.highestPrice l ∧
      synthBTC.averagePrice l ≤ Utils.calculateTargetPrice l ∧
      ∀ x : ℝ, l = [x] →
        SpecSide.specPopulationStdDev l = 0 ∧
        Utils.calculateTargetPrice l = synthBTC.averagePrice l := by
  intro l h
  refine ⟨synthBTC.lowestPrice_le_averagePrice l h,
    synthBTC.averagePrice_le_highestPrice l h, ?_, ?_⟩
  · rw [Utils.calculateTargetPrice_eq, synthBTC.averagePrice_eq_sum_div]
    have h1 : SpecSide.specMean l = l.sum / (l.length : ℝ) := rfl
    have h2 : 0 ≤ SpecSide.specPopulationStdDev l := Real.sqrt_nonneg _
    linarith [h2]
  · rintro x rfl
    have hsd : SpecSide.specPopulationStdDev [x] = 0 := by
      unfold SpecSide.specPopulationStdDev SpecSide.specPopulationVariance SpecSide.specMean
      simp
    refine ⟨hsd, ?_⟩
    rw [Utils.calculateTargetPrice_eq, hsd, add_zero, synthBTC.averagePrice_eq_sum_div]
    rfl

/-- Witness for C6 at the concrete list `[2] : List ℝ`. -/
theorem claim_C6_witness :
    ([2] : List ℝ) ≠ [] ∧
    synthBTC.averagePrice ([2] : List ℝ) ≤ Utils.calculateTargetPrice [2] ∧
    Utils.calculateTargetPrice ([2] : List ℝ) = synthBTC.averagePrice [2] :=
  ⟨by simp, (claim_C6_order_statistics [2] (by simp)).2.2.1,
    ((claim_C6_order_statistics [2] (by simp)).2.2.2 2 rfl).2⟩

/-- Claim C9: for every list of requested ids and every existing ledger,
the by-ids query returns (without throwing) exactly one entry per
requested id in request order; an id between 1 and the number of stored
rows yields that row, any other id yields the explicit not-available
marker for that entry only. -/
theorem claim_C9_by_ids_query (ids : List ℤ) (rows : List synthBTC.LogRow) :
    ∃ out : List (synthBTC.LogRow ⊕ String),
      APICore.getSimulationsByIds ids (some rows) = .ok out ∧
      out.length = ids.length ∧
      ∀ (k : ℕ) (id : ℤ) (r : synthBTC.LogRow), ids[k]? = some id →
        ((0 < id ∧ id ≤ (rows.length : ℤ)) → rows[(id - 1).toNat]? = some r →
          out[k]? = some (Sum.inl r)) ∧
        (¬(0 < id ∧ id ≤ (rows.length : ℤ)) →
          out[k]? = some (Sum.inr ("Simulation " ++ toString id ++ " not available"))) := by
  refine ⟨_, rfl, by simp [List.length_map], ?_⟩
  intro k id r hid
  have hk : k < ids.length := by
    by_contra hk
    rw [List.getElem?_eq_none (by omega)] at hid
    exact Option.noConfusion hid
  obtain ⟨hk2, hidk⟩ := List.getElem?_eq_some_iff.mp hid
  constructor
  · intro hin hr
    obtain ⟨hb2, hr2⟩ := List.getElem?_eq_some_iff.mp hr
    rw [List.getElem?_eq_some_iff]
    refine ⟨by simpa using hk2, ?_⟩
    rw [List.getElem_map, hidk, dif_pos hin]
    exact congrArg Sum.inl (by simpa [List.get_eq_getElem] using hr2)
  · intro hout
    rw [List.getElem?_eq_some_iff]
    refine ⟨by simpa using hk2, ?_⟩
    rw [List.getElem_map, hidk, dif_neg hout]

/-- Witness for C9: a three-row ledger queried with ids `[2, 7]` yields
row 2 and a not-available marker, in order. -/
theorem claim_C9_witness :
    ∃ out : List (synthBTC.LogRow ⊕ String),
      APICore.getSimulationsByIds [2, 7]
        (some [synthBTC.demoRow 1, synthBTC.demoRow 2, synthBTC.demoRow 3]) = .ok out ∧
      out[0]? = some (Sum.inl (synthBTC.demoRow 2)) ∧
      out[1]? = some (Sum.inr "Simulation 7 not available") := by
  obtain ⟨out, hout, _, hk⟩ := claim_C9_by_ids_query [2, 7]
    [synthBTC.demoRow 1, synthBTC.demoRow 2, synthBTC.demoRow 3]
  refine ⟨out, hout, ?_, ?_⟩
  · exact (hk 0 2 (synthBTC.demoRow 2) rfl).1 (by decide) rfl
  · exact (hk 1 7 (synthBTC.demoRow 1) rfl).2 (by decide)

/-- Claim C10 is false as stated: with no matching file in the directory,
`getLastFileIndex` (startup) returns 0 while `determineNextFileIndex`
(per run) returns 1. -/
theorem claim_C10_counterexample :
    ¬ (Utils.getLastFileIndex [] = Utils.determineNextFileIndex []) := by decide

/-- Claim C10 as amended: whenever at least one matching file exists the
two raw-output index helpers agree, both returning the highest existing
numeric suffix plus one; when no matching file exists they disagree,
`getLastFileIndex` returning 0 and `determineNextFileIndex` returning 1. -/
theorem claim_C10_file_index_helpers :
    (∀ indices : List ℕ, indices ≠ [] →
      Utils.getLastFileIndex indices = Utils.determineNextFileIndex indices ∧
      Utils.getLastFileIndex indices = indices.foldl max 0 + 1) ∧
    Utils.getLastFileIndex [] = 0 ∧ Utils.determineNextFileIndex [] = 1 := by
  refine ⟨?_, rfl, rfl⟩
  intro indices h
  have hl : indices.length > 0 := List.length_pos.mpr h
  unfold Utils.getLastFileIndex Utils.determineNextFileIndex
  rw [if_neg h, if_pos hl]
  exact ⟨rfl, rfl⟩

/-- Witness for C10 (amended) at the concrete directory `[3, 1]`. -/
theorem claim_C10_witness :
    ([3, 1] : List ℕ) ≠ [] ∧
    Utils.getLastFileIndex [3, 1] = Utils.determineNextFileIndex [3, 1] :=
  ⟨by decide, (claim_C10_file_index_helpers.1 [3, 1] (by decide)).1⟩

lemma MonteCarloEngine.validateInputs_ok {p : ℚ} (hp : 0 < p) {n : ℕ} (hn : 0 < n)
    {v : ℚ} (hv : 0 < v) {d : ℕ} (hd : 0 < d) :
    MonteCarloEngine.validateInputs (some p) n v d = .ok () := by
  unfold MonteCarloEngine.validateInputs MonteCarloEngine.jsLeZero
  rw [if_neg (by simp [hp.not_le]), if_neg (by omega), if_neg (by simp [hv.not_le]),
    if_neg (by omega)]

lemma MonteCarloEngine.batchSize_pos {N i : ℕ} (_hN : 0 < N)
    (hi : i < MonteCarloEngine.batchCount N) : 0 < MonteCarloEngine.batchSize N i := by
  unfold MonteCarloEngine.batchSize MonteCarloEngine.batchCount at *
  split
  · omega
  · omega

lemma MonteCarloEngine.simulatePrices_ok (sample : ℕ → ℕ → ℚ) (i : ℕ) {p : ℚ}
    (hp : 0 < p) {n : ℕ} (hn : 0 < n) {v : ℚ} (hv : 0 < v) {d : ℕ} (hd : 0 < d) :
    MonteCarloEngine.simulatePrices sample i (some p) n v d
      = .ok ((List.range n).map (sample i)) := by
  unfold MonteCarloEngine.simulatePrices
  rw [MonteCarloEngine.validateInputs_ok hp hn hv hd]
  rfl

lemma MonteCarloEngine.foldBatches_ok (sample : ℕ → ℕ → ℚ) {p : ℚ} {v : ℚ} {d : ℕ}
    (N : ℕ) (hp : 0 < p) (hv : 0 < v) (hd : 0 < d) :
    ∀ (is : List ℕ) (acc : List ℚ), (∀ i ∈ is, 0 < MonteCarloEngine.batchSize N i) →
      (is.foldlM (fun allPrices i => do
          let batchPrices ← MonteCarloEngine.simulatePrices sample i (some p)
            (MonteCarloEngine.batchSize N i) v d
          pure (allPrices ++ batchPrices)) acc : Except String (List ℚ))
        = .ok (acc ++ is.flatMap
            (fun i => (List.range (MonteCarloEngine.batchSize N i)).map (sample i))) := by
  intro is
  induction is with
  | nil => intro acc _; simp; rfl
  | cons i t ih =>
    intro acc h
    have hok := MonteCarloEngine.simulatePrices_ok sample i hp
      (h i (List.mem_cons_self i t)) hv hd
    rw [List.foldlM_cons]
    simp only [hok]
    rw [show ((Except.ok ((List.range (MonteCarloEngine.batchSize N i)).map (sample i)) :
        Except String (List ℚ)) >>= fun batchPrices => pure (acc ++ batchPrices) :
        Except String (List ℚ))
      = .ok (acc ++ (List.range (MonteCarloEngine.batchSize N i)).map (sample i)) from rfl]
    rw [show ((Except.ok (acc ++ (List.range (MonteCarloEngine.batchSize N i)).map (sample i)) :
        Except String (List ℚ)) >>= fun init => List.foldlM (fun allPrices j => do
          let batchPrices ← MonteCarloEngine.simulatePrices sample j (some p)
            (MonteCarloEngine.batchSize N j) v d
          pure (allPrices ++ batchPrices)) init t)
      = List.foldlM (fun allPrices j => do
          let batchPrices ← MonteCarloEngine.simulatePrices sample j (some p)
            (MonteCarloEngine.batchSize N j) v d
          pure (allPrices ++ batchPrices))
          (acc ++ (List.range (MonteCarloEngine.batchSize N i)).map (sample i)) t from rfl]
    rw [ih _ (fun j hj => h j (List.mem_cons_of_mem i hj))]
    rw [List.flatMap_cons, List.append_assoc]

lemma MonteCarloEngine.batchSizes_sum (N : ℕ) (hN : 0 < N) :
    ((List.range (MonteCarloEngine.batchCount N)).map (MonteCarloEngine.batchSize N)).sum
      = N := by
  have hbc : 0 < MonteCarloEngine.batchCount N := by
    unfold MonteCarloEngine.batchCount; omega
  obtain ⟨m, hm⟩ : ∃ m, MonteCarloEngine.batchCount N = m + 1 := ⟨_, (Nat.succ_pred_eq_of_pos hbc).symm⟩
  rw [hm, List.range_succ, List.map_append, List.sum_append]
  have hconst : (List.range m).map (MonteCarloEngine.batchSize N)
      = (List.range m).map (fun _ => 5000) := by
    apply List.map_congr_left
    intro i hi
    have : i < m := List.mem_range.mp hi
    unfold MonteCarloEngine.batchSize
    rw [if_neg (by omega)]
  rw [hconst]
  have hlast : MonteCarloEngine.batchSize N m = N - m * 5000 := by
    unfold MonteCarloEngine.batchSize
    rw [if_pos (by omega)]
  have hlt : m * 5000 < N := by
    unfold MonteCarloEngine.batchCount at hm
    omega
  have hsum : ((List.range m).map (fun _ => (5000 : ℕ))).sum = m * 5000 := by
    simp [List.map_const]
  rw [hsum]
  simp only [List.map_cons, List.map_nil, List.sum_cons, List.sum_nil, hlast]
  omega

lemma MonteCarloEngine.executeFullSimulation_ok_form (sample : ℕ → ℕ → ℚ)
    {p v : ℚ} {N d : ℕ} (hp : 0 < p) (hv : 0 < v) (hN : 0 < N) (hd : 0 < d) :
    MonteCarloEngine.executeFullSimulation sample (some p) N v d
      = .ok ((List.range (MonteCarloEngine.batchCount N)).flatMap
          (fun i => (List.range (MonteCarloEngine.batchSize N i)).map (sample i))) := by
  unfold MonteCarloEngine.executeFullSimulation
  rw [MonteCarloEngine.foldBatches_ok sample N hp hv hd _ []
    (fun i hi => MonteCarloEngine.batchSize_pos hN (List.mem_range.mp hi))]
  rw [List.nil_append]

/-- Claim C7: for every valid request with simulation count N, the full
simulation partitions N into `ceil(N/5000)` batches, every batch of size
5000 except the final one which takes the remainder
`N - 5000*(ceil(N/5000)-1)`, concatenates the batch results in batch
order, and returns exactly N prices. -/
theorem claim_C7_batch_partition (sample : ℕ → ℕ → ℚ) (p v : ℚ) (N d : ℕ)
    (hp : 0 < p) (hv : 0 < v) (hN : 0 < N) (hd : 0 < d) :
    ∃ batches : List (List ℚ),
      MonteCarloEngine.executeFullSimulation sample (some p) N v d = .ok batches.flatten ∧
      batches.length = MonteCarloEngine.batchCount N ∧
      5000 * (MonteCarloEngine.batchCount N - 1) < N ∧
      N ≤ 5000 * MonteCarloEngine.batchCount N ∧
      (∀ i, i < MonteCarloEngine.batchCount N →
        batches[i]?.map List.length = some (MonteCarloEngine.batchSize N i)) ∧
      (∀ i, i < MonteCarloEngine.batchCount N - 1 → MonteCarloEngine.batchSize N i = 5000) ∧
      MonteCarloEngine.batchSize N (MonteCarloEngine.batchCount N - 1)
        = N - 5000 * (MonteCarloEngine.batchCount N - 1) ∧
      batches.flatten.length = N := by
  refine ⟨(List.range (MonteCarloEngine.batchCount N)).map
    (fun i => (List.range (MonteCarloEngine.batchSize N i)).map (sample i)), ?_, ?_, ?_, ?_, ?_, ?_, ?_, ?_⟩
  · unfold MonteCarloEngine.executeFullSimulation
    rw [MonteCarloEngine.foldBatches_ok sample N hp hv hd _ []
      (fun i hi => MonteCarloEngine.batchSize_pos hN (List.mem_range.mp hi))]
    rw [List.nil_append, List.flatMap_def]
  · simp
  · unfold MonteCarloEngine.batchCount; omega
  · unfold MonteCarloEngine.batchCount; omega
  · intro i hi
    rw [List.getElem?_map]
    rw [show (List.range (MonteCarloEngine.batchCount N))[i]? = some i by
      simp [List.getElem?_range, hi]]
    simp
  · intro i hi
    unfold MonteCarloEngine.batchSize
    rw [if_neg (by omega)]
  · unfold MonteCarloEngine.batchSize
    rw [if_pos rfl]
    omega
  · rw [List.length_flatten]
    rw [List.map_map]
    rw [show (List.length ∘ fun i => (List.range (MonteCarloEngine.batchSize N i)).map (sample i))
        = MonteCarloEngine.batchSize N by funext i; simp]
    exact MonteCarloEngine.batchSizes_sum N hN

/-- Witness for C7 at price 100, volatility 0.2, horizon 30 days and
simulation count 7000 (two batches: 5000 and 2000). -/
theorem claim_C7_witness :
    (0 < (100 : ℚ) ∧ 0 < (1 / 5 : ℚ) ∧ 0 < 7000 ∧ 0 < 30) ∧
    ∃ batches : List (List ℚ),
      MonteCarloEngine.executeFullSimulation (fun _ _ => 1) (some 100) 7000 (1 / 5) 30
        = .ok batches.flatten ∧
      batches.length = MonteCarloEngine.batchCount 7000 ∧
      batches.flatten.length = 7000 :=
  ⟨⟨by norm_num, by norm_num, by norm_num, by norm_num⟩, by
    obtain ⟨batches, h1, h2, _, _, _, _, _, h8⟩ :=
      claim_C7_batch_partition (fun _ _ => 1) 100 (1 / 5) 7000 30
        (by norm_num) (by norm_num) (by norm_num) (by norm_num)
    exact ⟨batches, h1, h2, h8⟩⟩

lemma foldl_append_eq_flatMap {β : Type} (g : ℕ → List β) :
    ∀ (is : List ℕ) (acc : List β),
      is.foldl (fun acc i => acc ++ g i) acc = acc ++ is.flatMap g := by
  intro is
  induction is with
  | nil => intro acc; simp
  | cons i t ih => intro acc; simp [List.foldl_cons, ih]

lemma mapIdx_congr_lt {α β : Type} (l : List α) (f g : ℕ → α → β)
    (h : ∀ k, k < l.length → ∀ a, f k a = g k a) : l.mapIdx f = l.mapIdx g := by
  apply List.ext_getElem
  · simp
  · intro k h1 h2
    rw [List.getElem_mapIdx, List.getElem_mapIdx]
    exact h k (by simpa using h1) _

lemma chunked_flatMap_eq_mapIdx {β : Type} (f : ℕ → ℚ → β) :
    ∀ (n : ℕ) (l : List ℚ), l.length ≤ n →
      (List.range ((l.length + 4999) / 5000)).flatMap
          (fun i => ((l.drop (i * 5000)).take 5000).mapIdx f)
        = l.mapIdx (fun k p => f (k % 5000) p) := by
  intro n
  induction n with
  | zero =>
    intro l hl
    have : l = [] := List.length_eq_zero.mp (by omega)
    subst this
    simp
  | succ n ih =>
    intro l hl
    rcases Nat.eq_zero_or_pos l.length with hlen | hlen
    · have : l = [] := List.length_eq_zero.mp hlen
      subst this
      simp
    rcases le_or_lt l.length 5000 with hle | hgt
    · have hbc : (l.length + 4999) / 5000 = 1 := by omega
      rw [hbc]
      rw [show List.range 1 = [0] from rfl]
      rw [List.flatMap_cons, List.flatMap_nil, List.append_nil]
      rw [show (0 : ℕ) * 5000 = 0 from rfl, List.drop_zero, List.take_of_length_le hle]
      exact mapIdx_congr_lt l f _ (fun k hk a => by rw [Nat.mod_eq_of_lt (by omega)])
    · have hdl : (l.drop 5000).length = l.length - 5000 := by simp
      have hbc : (l.length + 4999) / 5000 = ((l.drop 5000).length + 4999) / 5000 + 1 := by
        rw [hdl]; omega
      rw [hbc, List.range_succ_eq_map, List.flatMap_cons, List.flatMap_map]
      rw [show (0 : ℕ) * 5000 = 0 from rfl, List.drop_zero]
      have hchunks : (fun x => ((l.drop (Nat.succ x * 5000)).take 5000).mapIdx f)
          = fun x => (((l.drop 5000).drop (x * 5000)).take 5000).mapIdx f := by
        funext x
        have hx : x.succ * 5000 = 5000 + x * 5000 := by omega
        rw [hx, ← List.drop_drop]
      rw [hchunks]
      rw [ih (l.drop 5000) (by rw [hdl]; omega)]
      conv_rhs => rw [← List.take_append_drop 5000 l]
      rw [List.mapIdx_append]
      have htk : (l.take 5000).length = 5000 := by simp; omega
      congr 1
      · exact mapIdx_congr_lt _ _ _ (fun k hk a => by
          rw [htk] at hk
          rw [Nat.mod_eq_of_lt (by omega)])
      · rw [htk]
        exact mapIdx_congr_lt _ _ _ (fun k hk a => by rw [Nat.add_mod_right])

lemma synthBTC.rawRows_eq_mapIdx (l : List ℚ) (cur : ℚ) :
    synthBTC.rawRows l.length l cur
      = l.mapIdx (fun k price =>
          ⟨k % 5000 + 1, round price, Utils.calculateChangePercentage price cur⟩) := by
  unfold synthBTC.rawRows
  rw [foldl_append_eq_flatMap, List.nil_append]
  exact chunked_flatMap_eq_mapIdx _ l.length l le_rfl

/-- Claim C1 concerns the rows of the persisted raw-output file.  The row
count does equal the simulation count, but the `simulation_id` column of
the k-th row (k counted from 0) holds `k % 5000 + 1`, not `k + 1`: the
writing loop numbers each 5000-price chunk independently
(`slicedPrices.forEach((price, index) => ... index + 1 ...)`), so a run
with more than 5000 simulations gets rows numbered 1..5000, 1..5000, ...
instead of 1..N. -/
theorem claim_C1_raw_row_numbering (l : List ℚ) (cur : ℚ) :
    (synthBTC.rawRows l.length l cur).length = l.length ∧
    (synthBTC.rawRows l.length l cur).map synthBTC.RawRow.simulation_id
      = (List.range l.length).map (fun k => k % 5000 + 1) := by
  rw [synthBTC.rawRows_eq_mapIdx]
  constructor
  · simp
  · apply List.ext_getElem
    · simp
    · intro k h1 h2
      rw [List.getElem_map, List.getElem_mapIdx, List.getElem_map, List.getElem_range]

lemma synthBTC.currentPriceBTC_fields (g e : Option ℚ) (s : synthBTC.SynthState) :
    (synthBTC.currentPriceBTC g e s).1.fileIndex = s.fileIndex ∧
    (synthBTC.currentPriceBTC g e s).1.simulatedData = s.simulatedData ∧
    (synthBTC.currentPriceBTC g e s).1.simulationCounter = s.simulationCounter ∧
    (synthBTC.currentPriceBTC g e s).1.simulationStatus = s.simulationStatus ∧
    (synthBTC.currentPriceBTC g e s).1.latestOutput = s.latestOutput ∧
    (synthBTC.currentPriceBTC g e s).1.dataFiles = s.dataFiles ∧
    (synthBTC.currentPriceBTC g e s).1.coreRows = s.coreRows := by
  cases hpf : PriceFetcher.getCurrentPrice g e <;>
    simp [synthBTC.currentPriceBTC, hpf]

lemma synthBTC.generateSimulations_def (req : synthBTC.Request) (g e : Option ℚ)
    (sample : ℕ → ℕ → ℚ) (s : synthBTC.SynthState) :
    synthBTC.generateSimulations req g e sample s
      = match MonteCarloEngine.executeFullSimulation sample
          (synthBTC.currentPriceBTC g e { s with simulationStatus := "PROCESSING" }).2
          req.totalSimulations (req.volatilityPercentage / 100) req.simulationDays with
        | .error e1 =>
          ((synthBTC.currentPriceBTC g e { s with simulationStatus := "PROCESSING" }).1,
            .error e1)
        | .ok allPrices =>
          ((synthBTC.finishRun req
              (synthBTC.currentPriceBTC g e { s with simulationStatus := "PROCESSING" }).1
              (synthBTC.currentPriceBTC g e { s with simulationStatus := "PROCESSING" }).2
              allPrices).1,
            .ok (synthBTC.finishRun req
              (synthBTC.currentPriceBTC g e { s with simulationStatus := "PROCESSING" }).1
              (synthBTC.currentPriceBTC g e { s with simulationStatus := "PROCESSING" }).2
              allPrices).2) := rfl

lemma synthBTC.generateSimulations_error (req : synthBTC.Request) (g e : Option ℚ)
    (sample : ℕ → ℕ → ℚ) (s : synthBTC.SynthState) (msg : String)
    (hexec : MonteCarloEngine.executeFullSimulation sample
        (synthBTC.currentPriceBTC g e { s with simulationStatus := "PROCESSING" }).2
        req.totalSimulations (req.volatilityPercentage / 100) req.simulationDays
      = .error msg) :
    synthBTC.generateSimulations req g e sample s
      = ((synthBTC.currentPriceBTC g e { s with simulationStatus := "PROCESSING" }).1,
          .error msg) := by
  rw [synthBTC.generateSimulations_def, hexec]

lemma synthBTC.generateSimulations_ok (req : synthBTC.Request) (g e : Option ℚ)
    (sample : ℕ → ℕ → ℚ) (s : synthBTC.SynthState) (prices : List ℚ)
    (hexec : MonteCarloEngine.executeFullSimulation sample
        (synthBTC.currentPriceBTC g e { s with simulationStatus := "PROCESSING" }).2
        req.totalSimulations (req.volatilityPercentage / 100) req.simulationDays
      = .ok prices) :
    synthBTC.generateSimulations req g e sample s
      = ((synthBTC.finishRun req
            (synthBTC.currentPriceBTC g e { s with simulationStatus := "PROCESSING" }).1
            (synthBTC.currentPriceBTC g e { s with simulationStatus := "PROCESSING" }).2
            prices).1,
          .ok (synthBTC.finishRun req
            (synthBTC.currentPriceBTC g e { s with simulationStatus := "PROCESSING" }).1
            (synthBTC.currentPriceBTC g e { s with simulationStatus := "PROCESSING" }).2
            prices).2) := by
  rw [synthBTC.generateSimulations_def, hexec]

lemma MonteCarloEngine.validateInputs_error_price (cp : Option ℚ) (n : ℕ) (v : ℚ)
    (d : ℕ) (h : MonteCarloEngine.jsLeZero cp = true) :
    MonteCarloEngine.validateInputs cp n v d
      = .error "Current price must be greater than 0" := by
  unfold MonteCarloEngine.validateInputs
  rw [if_pos h]

lemma MonteCarloEngine.validateInputs_error_vol (cp : Option ℚ) (n : ℕ) (v : ℚ)
    (d : ℕ) (hjs : MonteCarloEngine.jsLeZero cp = false) (hn : 0 < n) (hv : v ≤ 0) :
    MonteCarloEngine.validateInputs cp n v d
      = .error "Volatility must be greater than 0" := by
  unfold MonteCarloEngine.validateInputs
  rw [if_neg (by simp [hjs]), if_neg (by omega), if_pos hv]

lemma MonteCarloEngine.validateInputs_error_days (cp : Option ℚ) (n : ℕ) (v : ℚ)
    (d : ℕ) (hjs : MonteCarloEngine.jsLeZero cp = false) (hn : 0 < n) (hv : 0 < v)
    (hd : d = 0) :
    MonteCarloEngine.validateInputs cp n v d
      = .error "Days must be greater than 0" := by
  unfold MonteCarloEngine.validateInputs
  rw [if_neg (by simp [hjs]), if_neg (by omega), if_neg (by simp [hv.not_le]), if_pos (by omega)]

lemma foldlM_first_error (f : List ℚ → ℕ → Except String (List ℚ)) (msg : String)
    (i : ℕ) (t : List ℕ) (acc : List ℚ) (h : f acc i = .error msg) :
    List.foldlM f acc (i :: t) = .error msg := by
  rw [List.foldlM_cons, h]
  rfl

lemma MonteCarloEngine.executeFullSimulation_error_first (sample : ℕ → ℕ → ℚ)
    (cp : Option ℚ) (N : ℕ) (v : ℚ) (d : ℕ) (msg : String) (hN : 0 < N)
    (hval : MonteCarloEngine.validateInputs cp (MonteCarloEngine.batchSize N 0) v d
      = .error msg) :
    MonteCarloEngine.executeFullSimulation sample cp N v d = .error msg := by
  unfold MonteCarloEngine.executeFullSimulation
  have hbc : ∃ m, MonteCarloEngine.batchCount N = m + 1 := by
    unfold MonteCarloEngine.batchCount
    refine ⟨(N + 4999) / 5000 - 1, by omega⟩
  obtain ⟨m, hm⟩ := hbc
  rw [hm, List.range_succ_eq_map]
  apply foldlM_first_error
  show (MonteCarloEngine.simulatePrices sample 0 cp (MonteCarloEngine.batchSize N 0) v d
    >>= fun batchPrices => pure ([] ++ batchPrices)) = Except.error msg
  unfold MonteCarloEngine.simulatePrices
  rw [hval]
  rfl

lemma synthBTC.finishRun_fields (req : synthBTC.Request) (s2 : synthBTC.SynthState)
    (cp : Option ℚ) (prices : List ℚ) :
    (synthBTC.finishRun req s2 cp prices).1.simulationStatus = "OK" ∧
    (synthBTC.finishRun req s2 cp prices).1.simulationCounter = s2.simulationCounter + 1 ∧
    (synthBTC.finishRun req s2 cp prices).1.simulatedData
      = s2.simulatedData + req.totalSimulations ∧
    (synthBTC.finishRun req s2 cp prices).1.latestOutput = s2.latestOutput ∧
    (synthBTC.finishRun req s2 cp prices).1.dataFiles
      = synthBTC.writeDataFile s2.dataFiles
          (Utils.determineNextFileIndex (s2.dataFiles.map Prod.fst))
          (synthBTC.rawRows req.totalSimulations prices (cp.getD 0)) ∧
    ∃ row : synthBTC.LogRow,
      (synthBTC.finishRun req s2 cp prices).1.coreRows
        = some (s2.coreRows.getD [] ++ [row]) ∧
      row.simulation_id = s2.simulationCounter + 1 ∧
      row.simulated_data = req.totalSimulations ∧
      row.total_simulated = s2.simulatedData + req.totalSimulations := by
  exact ⟨rfl, rfl, rfl, rfl, rfl, ⟨_, rfl, rfl, rfl, rfl⟩⟩

lemma synthBTC.getSimulationData_error (req : synthBTC.Request) (g e : Option ℚ)
    (sample : ℕ → ℕ → ℚ) (s s1 : synthBTC.SynthState) (msg : String)
    (hgen : synthBTC.generateSimulations req g e sample s = (s1, .error msg)) :
    synthBTC.getSimulationData req g e sample s = (s1, .error msg) := by
  unfold synthBTC.getSimulationData
  rw [hgen]

lemma synthBTC.getSimulationData_ok (req : synthBTC.Request) (g e : Option ℚ)
    (sample : ℕ → ℕ → ℚ) (s s1 : synthBTC.SynthState) (out : synthBTC.Output)
    (hgen : synthBTC.generateSimulations req g e sample s = (s1, .ok out)) :
    synthBTC.getSimulationData req g e sample s
      = ({ s1 with latestOutput := some out }, .ok out) := by
  unfold synthBTC.getSimulationData
  rw [hgen]

/-- Claim C2 is false as stated: with both feeds down but a stale price
cached from an earlier successful fetch, the run does not fail at all — it
completes with status OK using the stale price, appends a ledger row and
replaces the cached overview.  Concretely, from `staleState` (one earlier
successful fetch of price 100, empty ledger, empty cache) a run with both
feeds failing returns `.ok`, leaves the status "OK" (the code has no
FAILED status), grows the ledger from 0 to 1 rows and fills the cache. -/
theorem claim_C2_counterexample :
    (synthBTC.staleState.coreRows.getD []).length = 0 ∧
    synthBTC.staleState.latestOutput = none ∧
    ((synthBTC.getSimulationData ⟨1, 20, 30, 4⟩ none none (fun _ _ => 110)
        synthBTC.staleState).2).isOk = true ∧
    (synthBTC.getSimulationData ⟨1, 20, 30, 4⟩ none none (fun _ _ => 110)
        synthBTC.staleState).1.simulationStatus = "OK" ∧
    ¬ (synthBTC.getSimulationData ⟨1, 20, 30, 4⟩ none none (fun _ _ => 110)
        synthBTC.staleState).1.simulationStatus = "FAILED" ∧
    ((synthBTC.getSimulationData ⟨1, 20, 30, 4⟩ none none (fun _ _ => 110)
        synthBTC.staleState).1.coreRows.getD []).length = 1 ∧
    ((synthBTC.getSimulationData ⟨1, 20, 30, 4⟩ none none (fun _ _ => 110)
        synthBTC.staleState).1.latestOutput).isSome = true := by
  have hexec : MonteCarloEngine.executeFullSimulation (fun _ _ => (110 : ℚ))
      (synthBTC.currentPriceBTC none none
        { synthBTC.staleState with simulationStatus := "PROCESSING" }).2
      1 (20 / 100) 30 = .ok [110] := by
    rw [show (synthBTC.currentPriceBTC none none
        { synthBTC.staleState with simulationStatus := "PROCESSING" }).2 = some 100 from rfl]
    rw [MonteCarloEngine.executeFullSimulation_ok_form (fun _ _ => (110 : ℚ))
      (by norm_num) (by norm_num) (by norm_num) (by norm_num)]
    rfl
  have hgen := synthBTC.generateSimulations_ok ⟨1, 20, 30, 4⟩ none none
    (fun _ _ => 110) synthBTC.staleState [110] hexec
  have hgsd := synthBTC.getSimulationData_ok ⟨1, 20, 30, 4⟩ none none
    (fun _ _ => 110) synthBTC.staleState _ _ hgen
  obtain ⟨hst, _, _, _, _, row, hcore, _, _, _⟩ := synthBTC.finishRun_fields
    (⟨1, 20, 30, 4⟩ : synthBTC.Request)
    (synthBTC.currentPriceBTC none none
      { synthBTC.staleState with simulationStatus := "PROCESSING" }).1
    (synthBTC.currentPriceBTC none none
      { synthBTC.staleState with simulationStatus := "PROCESSING" }).2
    [110]
  rw [hgsd]
  have hst2 : ({ (synthBTC.finishRun ⟨1, 20, 30, 4⟩
      (synthBTC.currentPriceBTC none none
        { synthBTC.staleState with simulationStatus := "PROCESSING" }).1
      (synthBTC.currentPriceBTC none none
        { synthBTC.staleState with simulationStatus := "PROCESSING" }).2
      [110]).1 with
        latestOutput := some (synthBTC.finishRun ⟨1, 20, 30, 4⟩
          (synthBTC.currentPriceBTC none none
            { synthBTC.staleState with simulationStatus := "PROCESSING" }).1
          (synthBTC.currentPriceBTC none none
            { synthBTC.staleState with simulationStatus := "PROCESSING" }).2
          [110]).2 } : synthBTC.SynthState).simulationStatus = "OK" := hst
  have hcore2 : ({ (synthBTC.finishRun ⟨1, 20, 30, 4⟩
      (synthBTC.currentPriceBTC none none
        { synthBTC.staleState with simulationStatus := "PROCESSING" }).1
      (synthBTC.currentPriceBTC none none
        { synthBTC.staleState with simulationStatus := "PROCESSING" }).2
      [110]).1 with
        latestOutput := some (synthBTC.finishRun ⟨1, 20, 30, 4⟩
          (synthBTC.currentPriceBTC none none
            { synthBTC.staleState with simulationStatus := "PROCESSING" }).1
          (synthBTC.currentPriceBTC none none
            { synthBTC.staleState with simulationStatus := "PROCESSING" }).2
          [110]).2 } : synthBTC.SynthState).coreRows = some ([] ++ [row]) := hcore
  refine ⟨rfl, rfl, rfl, hst2, ?_, ?_, rfl⟩
  · rw [hst2]
    decide
  · rw [hcore2]
    simp

/-- Claim C2 as amended: the engine reuses the last known price when every
feed fails, so a run only aborts when no price was ever fetched; in that
case `generateSimulations` throws (the validation of the null price), no
ledger row is appended, the data directory, counters and cached overview
are unchanged — but the run status is left as "PROCESSING", not FAILED
(the code has no FAILED status). -/
theorem claim_C2_feed_failure (req : synthBTC.Request) (sample : ℕ → ℕ → ℚ)
    (s : synthBTC.SynthState) (hN : 0 < req.totalSimulations)
    (hlast : s.lastKnownPrice = none) :
    (synthBTC.getSimulationData req none none sample s).2
      = .error "Current price must be greater than 0" ∧
    (synthBTC.getSimulationData req none none sample s).1.coreRows = s.coreRows ∧
    (synthBTC.getSimulationData req none none sample s).1.dataFiles = s.dataFiles ∧
    (synthBTC.getSimulationData req none none sample s).1.latestOutput = s.latestOutput ∧
    (synthBTC.getSimulationData req none none sample s).1.simulatedData = s.simulatedData ∧
    (synthBTC.getSimulationData req none none sample s).1.simulationCounter
      = s.simulationCounter ∧
    (synthBTC.getSimulationData req none none sample s).1.simulationStatus
      = "PROCESSING" := by
  have hcp : (synthBTC.currentPriceBTC none none
      { s with simulationStatus := "PROCESSING" }).2 = none := hlast
  have hval : MonteCarloEngine.validateInputs
      (synthBTC.currentPriceBTC none none { s with simulationStatus := "PROCESSING" }).2
      (MonteCarloEngine.batchSize req.totalSimulations 0)
      (req.volatilityPercentage / 100) req.simulationDays
      = .error "Current price must be greater than 0" := by
    rw [hcp]
    exact MonteCarloEngine.validateInputs_error_price none _ _ _ rfl
  have hexec := MonteCarloEngine.executeFullSimulation_error_first sample _
    req.totalSimulations _ _ _ hN hval
  have hgen := synthBTC.generateSimulations_error req none none sample s _ hexec
  have hgsd := synthBTC.getSimulationData_error req none none sample s _ _ hgen
  rw [hgsd]
  exact ⟨rfl, rfl, rfl, rfl, rfl, rfl, rfl⟩

/-- Witness for C2 (amended) from the initial state, where no price was
ever fetched. -/
theorem claim_C2_witness :
    (0 < 1 ∧ synthBTC.initialState.lastKnownPrice = none) ∧
    (synthBTC.getSimulationData ⟨1, 20, 30, 4⟩ none none (fun _ _ => 110)
        synthBTC.initialState).2
      = .error "Current price must be greater than 0" ∧
    (synthBTC.getSimulationData ⟨1, 20, 30, 4⟩ none none (fun _ _ => 110)
        synthBTC.initialState).1.simulationStatus = "PROCESSING" :=
  ⟨⟨by decide, rfl⟩,
    (claim_C2_feed_failure ⟨1, 20, 30, 4⟩ (fun _ _ => 110) synthBTC.initialState
      (by decide) rfl).1,
    (claim_C2_feed_failure ⟨1, 20, 30, 4⟩ (fun _ _ => 110) synthBTC.initialState
      (by decide) rfl).2.2.2.2.2.2⟩

/-- Claim C3 is false as stated: a request with a non-positive simulation
count is not rejected at all.  With count 0 there are zero batches, so
`validateInputs` (which lives inside the per-batch `simulatePrices`) never
runs: from the initial state the run completes with `.ok`, increments the
run counter and appends a ledger row. -/
theorem claim_C3_counterexample :
    ((synthBTC.getSimulationData ⟨0, 20, 30, 4⟩ (some 100) none (fun _ _ => 1)
        synthBTC.initialState).2).isOk = true ∧
    (synthBTC.getSimulationData ⟨0, 20, 30, 4⟩ (some 100) none (fun _ _ => 1)
        synthBTC.initialState).1.simulationCounter = 1 ∧
    ((synthBTC.getSimulationData ⟨0, 20, 30, 4⟩ (some 100) none (fun _ _ => 1)
        synthBTC.initialState).1.coreRows.getD []).length = 1 :=
  ⟨rfl, rfl, rfl⟩

/-- Claim C3 as amended: for a request with a positive simulation count in
which the volatility, the horizon days or the fetched reference price is
non-positive, the run throws a validation error before any simulation
price is computed: no ledger row is appended, no raw file written, the
counters and the cached overview are unchanged — but the throw happens
after the status was set to PROCESSING and the price fetched, so the
status is left mutated at "PROCESSING".  (A non-positive simulation
count, by contrast, is not rejected: see the counterexample.) -/
theorem claim_C3_validation_rejects (req : synthBTC.Request) (g e : Option ℚ)
    (sample : ℕ → ℕ → ℚ) (s : synthBTC.SynthState) (cp : Option ℚ)
    (hcp : (synthBTC.currentPriceBTC g e
      { s with simulationStatus := "PROCESSING" }).2 = cp)
    (hN : 0 < req.totalSimulations)
    (hbad : MonteCarloEngine.jsLeZero cp = true ∨ req.volatilityPercentage ≤ 0 ∨
      req.simulationDays = 0) :
    (∃ msg, (synthBTC.generateSimulations req g e sample s).2 = .error msg) ∧
    (synthBTC.generateSimulations req g e sample s).1.coreRows = s.coreRows ∧
    (synthBTC.generateSimulations req g e sample s).1.dataFiles = s.dataFiles ∧
    (synthBTC.generateSimulations req g e sample s).1.latestOutput = s.latestOutput ∧
    (synthBTC.generateSimulations req g e sample s).1.simulatedData = s.simulatedData ∧
    (synthBTC.generateSimulations req g e sample s).1.simulationCounter
      = s.simulationCounter ∧
    (synthBTC.generateSimulations req g e sample s).1.fileIndex = s.fileIndex ∧
    (synthBTC.generateSimulations req g e sample s).1.simulationStatus
      = "PROCESSING" := by
  have hb0 : 0 < MonteCarloEngine.batchSize req.totalSimulations 0 :=
    MonteCarloEngine.batchSize_pos hN (by unfold MonteCarloEngine.batchCount; omega)
  have hval : ∃ msg, MonteCarloEngine.validateInputs cp
      (MonteCarloEngine.batchSize req.totalSimulations 0)
      (req.volatilityPercentage / 100) req.simulationDays = .error msg := by
    cases hjs : MonteCarloEngine.jsLeZero cp with
    | true => exact ⟨_, MonteCarloEngine.validateInputs_error_price cp _ _ _ hjs⟩
    | false =>
      rcases hbad with h | h | h
      · rw [hjs] at h
        exact absurd h (by simp)
      · refine ⟨_, MonteCarloEngine.validateInputs_error_vol cp _ _ _ hjs hb0 ?_⟩
        exact div_nonpos_of_nonpos_of_nonneg h (by norm_num)
      · rcases le_or_lt req.volatilityPercentage 0 with hv | hv
        · refine ⟨_, MonteCarloEngine.validateInputs_error_vol cp _ _ _ hjs hb0 ?_⟩
          exact div_nonpos_of_nonpos_of_nonneg hv (by norm_num)
        · exact ⟨_, MonteCarloEngine.validateInputs_error_days cp _ _ _ hjs hb0
            (div_pos hv (by norm_num)) h⟩
  obtain ⟨msg, hvalmsg⟩ := hval
  rw [← hcp] at hvalmsg
  have hexec := MonteCarloEngine.executeFullSimulation_error_first sample _
    req.totalSimulations _ _ _ hN hvalmsg
  have hgen := synthBTC.generateSimulations_error req g e sample s _ hexec
  rw [hgen]
  obtain ⟨hf1, hf2, hf3, hf4, hf5, hf6, hf7⟩ :=
    synthBTC.currentPriceBTC_fields g e { s with simulationStatus := "PROCESSING" }
  exact ⟨⟨msg, rfl⟩, hf7, hf6, hf5, hf2, hf3, hf1, hf4⟩

/-- Witness for C3 (amended) at a request with negative volatility. -/
theorem claim_C3_witness :
    ((synthBTC.currentPriceBTC (some 100) none
        { synthBTC.initialState with simulationStatus := "PROCESSING" }).2 = some 100 ∧
      0 < 5 ∧ ((-3 : ℚ) ≤ 0 ∨ (5 : ℕ) = 0)) ∧
    (∃ msg, (synthBTC.generateSimulations ⟨5, -3, 30, 4⟩ (some 100) none (fun _ _ => 1)
        synthBTC.initialState).2 = .error msg) ∧
    (synthBTC.generateSimulations ⟨5, -3, 30, 4⟩ (some 100) none (fun _ _ => 1)
        synthBTC.initialState).1.simulationCounter = 0 ∧
    (synthBTC.generateSimulations ⟨5, -3, 30, 4⟩ (some 100) none (fun _ _ => 1)
        synthBTC.initialState).1.simulationStatus = "PROCESSING" := by
  have h := claim_C3_validation_rejects ⟨5, -3, 30, 4⟩ (some 100) none (fun _ _ => 1)
    synthBTC.initialState (some 100) rfl (by decide) (Or.inr (Or.inl (by norm_num)))
  exact ⟨⟨rfl, by decide, Or.inl (by norm_num)⟩, h.1, h.2.2.2.2.2.1, h.2.2.2.2.2.2.2⟩

lemma runlog_append_step (rows : List synthBTC.LogRow) (row : synthBTC.LogRow) (N : ℕ)
    (h3 : ∀ k (h : k < rows.length),
      (rows[k]).simulation_id = k + 1 ∧
      (rows[k]).total_simulated
        = ((rows.take (k + 1)).map synthBTC.LogRow.simulated_data).sum)
    (hrid : row.simulation_id = rows.length + 1)
    (hrown : row.simulated_data = N)
    (hrtot : row.total_simulated = (rows.map synthBTC.LogRow.simulated_data).sum + N) :
    ∀ k (h : k < (rows ++ [row]).length),
      ((rows ++ [row])[k]).simulation_id = k + 1 ∧
      ((rows ++ [row])[k]).total_simulated
        = (((rows ++ [row]).take (k + 1)).map synthBTC.LogRow.simulated_data).sum := by
  intro k h
  rw [List.length_append, List.length_singleton] at h
  rcases Nat.lt_or_ge k rows.length with hk | hk
  · have hb : k < (rows ++ [row]).length := by simp; omega
    have e1 : (rows ++ [row])[k] = rows[k] := List.getElem_append_left hk
    have e2 : (rows ++ [row]).take (k + 1) = rows.take (k + 1) :=
      List.take_append_of_le_length (by omega)
    rw [e1, e2]
    exact h3 k hk
  · have hke : k = rows.length := by omega
    subst hke
    have hb : rows.length < (rows ++ [row]).length := by simp
    have e1 : (rows ++ [row])[rows.length] = row := by
      rw [List.getElem_append_right (le_refl rows.length)]
      simp
    have e2 : (rows ++ [row]).take (rows.length + 1) = rows ++ [row] :=
      List.take_of_length_le (by simp)
    rw [e1, e2, hrid, hrtot, List.map_append, List.sum_append]
    simp [hrown]

/-- Claim C4: from a state whose ledger satisfies the run-log invariant
(consecutive gapless run ids 1..n, cumulative counts equal to the prefix
sums of the per-run counts — hence each row's cumulative count is the
previous row's plus its own — and counters consistent with the rows),
every successful run preserves the invariant; the boot state satisfies it,
so every sequence of completed runs keeps the ledger ids strictly
increasing, consecutive and gapless with additive cumulative counts. -/
theorem claim_C4_run_log_invariant :
    synthBTC.RunLogInvariant synthBTC.initialState ∧
    ∀ (req : synthBTC.Request) (g e : Option ℚ) (sample : ℕ → ℕ → ℚ)
      (s : synthBTC.SynthState),
      synthBTC.RunLogInvariant s →
      ((synthBTC.generateSimulations req g e sample s).2).isOk = true →
      synthBTC.RunLogInvariant (synthBTC.generateSimulations req g e sample s).1 := by
  constructor
  · exact ⟨rfl, rfl, fun k h => absurd h (Nat.not_lt_zero k)⟩
  · intro req g e sample s hInv hok
    cases hexec : MonteCarloEngine.executeFullSimulation sample
        ((synthBTC.currentPriceBTC g e { s with simulationStatus := "PROCESSING" }).2)
        req.totalSimulations (req.volatilityPercentage / 100) req.simulationDays with
    | error msg =>
      rw [synthBTC.generateSimulations_error req g e sample s msg hexec] at hok
      exact absurd hok (by simp [Except.isOk, Except.toBool])
    | ok prices =>
      rw [synthBTC.generateSimulations_ok req g e sample s prices hexec]
      obtain ⟨h1, h2, h3⟩ := hInv
      obtain ⟨_, hcnt, hdata, _, _, row, hcore, hrid, hrown, hrtot⟩ :=
        synthBTC.finishRun_fields req
          (synthBTC.currentPriceBTC g e { s with simulationStatus := "PROCESSING" }).1
          (synthBTC.currentPriceBTC g e { s with simulationStatus := "PROCESSING" }).2
          prices
      obtain ⟨_, hD2, hC2, _, _, _, hR2⟩ :=
        synthBTC.currentPriceBTC_fields g e { s with simulationStatus := "PROCESSING" }
      have hR2s : (synthBTC.currentPriceBTC g e
          { s with simulationStatus := "PROCESSING" }).1.coreRows = s.coreRows := hR2
      have hC2s : (synthBTC.currentPriceBTC g e
          { s with simulationStatus := "PROCESSING" }).1.simulationCounter
        = s.simulationCounter := hC2
      have hD2s : (synthBTC.currentPriceBTC g e
          { s with simulationStatus := "PROCESSING" }).1.simulatedData
        = s.simulatedData := hD2
      rw [hR2s] at hcore
      rw [hC2s] at hcnt hrid
      rw [hD2s] at hdata hrtot
      refine ⟨?_, ?_, ?_⟩
      · rw [hcnt, hcore, h1]
        simp
      · rw [hdata, hcore, h2]
        simp [hrown]
      · have hL : ((synthBTC.finishRun req
            (synthBTC.currentPriceBTC g e { s with simulationStatus := "PROCESSING" }).1
            (synthBTC.currentPriceBTC g e { s with simulationStatus := "PROCESSING" }).2
            prices).1.coreRows).getD [] = s.coreRows.getD [] ++ [row] := by
          rw [hcore]
          rfl
        exact (congrArg (fun L : List synthBTC.LogRow =>
          ∀ k (h : k < L.length),
            (L[k]).simulation_id = k + 1 ∧
            (L[k]).total_simulated
              = ((L.take (k + 1)).map synthBTC.LogRow.simulated_data).sum) hL).mpr
          (runlog_append_step (s.coreRows.getD []) row req.totalSimulations h3
            (by rw [hrid, h1]) hrown (by rw [hrtot, h2]))

/-- Witness for C4: one concrete successful run from the boot state
preserves the run-log invariant. -/
theorem claim_C4_witness :
    synthBTC.RunLogInvariant synthBTC.initialState ∧
    ((synthBTC.generateSimulations ⟨1, 20, 30, 4⟩ (some 100) none (fun _ _ => 110)
        synthBTC.initialState).2).isOk = true ∧
    synthBTC.RunLogInvariant (synthBTC.generateSimulations ⟨1, 20, 30, 4⟩ (some 100) none
        (fun _ _ => 110) synthBTC.initialState).1 := by
  have hexec : MonteCarloEngine.executeFullSimulation (fun _ _ => (110 : ℚ))
      ((synthBTC.currentPriceBTC (some 100) none
        { synthBTC.initialState with simulationStatus := "PROCESSING" }).2)
      1 (20 / 100) 30 = .ok [110] := by
    rw [show (synthBTC.currentPriceBTC (some 100) none
        { synthBTC.initialState with simulationStatus := "PROCESSING" }).2
      = some 100 from rfl]
    rw [MonteCarloEngine.executeFullSimulation_ok_form (fun _ _ => (110 : ℚ))
      (by norm_num) (by norm_num) (by norm_num) (by norm_num)]
    rfl
  have hinit : synthBTC.RunLogInvariant synthBTC.initialState :=
    ⟨rfl, rfl, fun k h => absurd h (Nat.not_lt_zero k)⟩
  have hok : ((synthBTC.generateSimulations ⟨1, 20, 30, 4⟩ (some 100) none
      (fun _ _ => 110) synthBTC.initialState).2).isOk = true := by
    rw [synthBTC.generateSimulations_ok ⟨1, 20, 30, 4⟩ (some 100) none
      (fun _ _ => 110) synthBTC.initialState [110] hexec]
    rfl
  exact ⟨hinit, hok,
    claim_C4_run_log_invariant.2 ⟨1, 20, 30, 4⟩ (some 100) none (fun _ _ => 110)
      synthBTC.initialState hinit hok⟩

lemma MonteCarloEngine.nextNonzeroDraw_spec (u : ℕ → ℝ)
    (h : ∀ i, ∃ j, i ≤ j ∧ u j ≠ 0) (i : ℕ) :
    i ≤ MonteCarloEngine.nextNonzeroDraw u h i ∧
    u (MonteCarloEngine.nextNonzeroDraw u h i) ≠ 0 := by
  unfold MonteCarloEngine.nextNonzeroDraw
  exact @Nat.find_spec (fun j => i ≤ j ∧ u j ≠ 0) (Classical.decPred _) (h i)

lemma MonteCarloEngine.gaussIndex_succ (u : ℕ → ℝ)
    (h : ∀ i, ∃ j, i ≤ j ∧ u j ≠ 0) (d : ℕ) :
    MonteCarloEngine.gaussIndex u h (d + 1)
      = (MonteCarloEngine.gaussianRandom u h (MonteCarloEngine.gaussIndex u h d)).2 := rfl

lemma MonteCarloEngine.runDays_spec (u : ℕ → ℝ) (h : ∀ i, ∃ j, i ≤ j ∧ u j ≠ 0)
    (v : ℝ) (H : ℕ) :
    ∀ (n d0 : ℕ) (price : ℝ),
      MonteCarloEngine.runDays u h v H n (price, MonteCarloEngine.gaussIndex u h d0)
        = (price * ∏ j in Finset.range n,
            Real.exp (v * MonteCarloEngine.gaussSeq u h (d0 + j) / Real.sqrt H),
           MonteCarloEngine.gaussIndex u h (d0 + n)) := by
  intro n
  induction n with
  | zero => intro d0 price; simp [MonteCarloEngine.runDays]
  | succ n ih =>
    intro d0 price
    rw [show MonteCarloEngine.runDays u h v H (n + 1)
        (price, MonteCarloEngine.gaussIndex u h d0)
      = MonteCarloEngine.runDays u h v H n
          (price * Real.exp (v * (MonteCarloEngine.gaussianRandom u h
              (MonteCarloEngine.gaussIndex u h d0)).1 / Real.sqrt H),
            (MonteCarloEngine.gaussianRandom u h
              (MonteCarloEngine.gaussIndex u h d0)).2) from rfl]
    rw [← MonteCarloEngine.gaussIndex_succ u h d0]
    rw [show (MonteCarloEngine.gaussianRandom u h (MonteCarloEngine.gaussIndex u h d0)).1
      = MonteCarloEngine.gaussSeq u h d0 from rfl]
    rw [ih (d0 + 1)]
    simp only [Prod.mk.injEq]
    constructor
    · rw [Finset.prod_range_succ']
      have hsh : (∏ j ∈ Finset.range n,
            Real.exp (v * MonteCarloEngine.gaussSeq u h (d0 + 1 + j) / Real.sqrt H))
          = ∏ k ∈ Finset.range n,
            Real.exp (v * MonteCarloEngine.gaussSeq u h (d0 + (k + 1)) / Real.sqrt H) :=
        Finset.prod_congr rfl
          (fun j _ => by rw [show d0 + 1 + j = d0 + (j + 1) from by omega])
      rw [hsh, show d0 + 0 = d0 from rfl]
      ring
    · rw [show d0 + 1 + n = d0 + (n + 1) from by omega]

/-- Claim C8: one sampled terminal price equals the start price multiplied
by the `simulationDays` sequential daily shocks
`exp(volatility * Z_d / sqrt(simulationDays))`, where each `Z_d` is the
Box-Muller transform `sqrt(-2 ln u) * cos(2 pi v)` of the next two uniform
draws in (0,1), draws of exactly 0 having been re-rolled; the sampler is a
pure function of its inputs and the draw stream. -/
theorem claim_C8_sampler (u : ℕ → ℝ) (h : ∀ i, ∃ j, i ≤ j ∧ u j ≠ 0)
    (hu : ∀ i, 0 ≤ u i ∧ u i < 1) (currentPrice decimalVolatility : ℝ) (H : ℕ) :
    MonteCarloEngine.simulateOnePrice u h currentPrice decimalVolatility H
      = currentPrice * ∏ d in Finset.range H,
          Real.exp (decimalVolatility * MonteCarloEngine.gaussSeq u h d / Real.sqrt H) ∧
    ∀ d, MonteCarloEngine.gaussSeq u h d
        = Real.sqrt (-2 * Real.log (u (MonteCarloEngine.fstDraw u h d)))
          * Real.cos (2 * Real.pi * u (MonteCarloEngine.sndDraw u h d)) ∧
      0 < u (MonteCarloEngine.fstDraw u h d) ∧ u (MonteCarloEngine.fstDraw u h d) < 1 ∧
      0 < u (MonteCarloEngine.sndDraw u h d) ∧ u (MonteCarloEngine.sndDraw u h d) < 1 := by
  constructor
  · unfold MonteCarloEngine.simulateOnePrice
    rw [show (0 : ℕ) = MonteCarloEngine.gaussIndex u h 0 from rfl]
    rw [MonteCarloEngine.runDays_spec u h decimalVolatility H H 0 currentPrice]
    simp
  · intro d
    refine ⟨rfl, ?_, ?_, ?_, ?_⟩
    · exact lt_of_le_of_ne (hu _).1
        (Ne.symm (MonteCarloEngine.nextNonzeroDraw_spec u h _).2)
    · exact (hu _).2
    · exact lt_of_le_of_ne (hu _).1
        (Ne.symm (MonteCarloEngine.nextNonzeroDraw_spec u h _).2)
    · exact (hu _).2

lemma halfStream_nonzero : ∀ i : ℕ, ∃ j, i ≤ j ∧ (fun _ : ℕ => (1 / 2 : ℝ)) j ≠ 0 :=
  fun i => ⟨i, le_refl i, by norm_num⟩

/-- Witness for C8 at the constant draw stream 1/2, start price 100,
volatility 1, horizon 2 days. -/
theorem claim_C8_witness :
    (∀ i : ℕ, ∃ j, i ≤ j ∧ (fun _ : ℕ => (1 / 2 : ℝ)) j ≠ 0) ∧
    (∀ i : ℕ, 0 ≤ (fun _ : ℕ => (1 / 2 : ℝ)) i ∧ (fun _ : ℕ => (1 / 2 : ℝ)) i < 1) ∧
    MonteCarloEngine.simulateOnePrice (fun _ : ℕ => (1 / 2 : ℝ)) halfStream_nonzero 100 1 2
      = 100 * ∏ d in Finset.range 2,
          Real.exp (1 * MonteCarloEngine.gaussSeq (fun _ : ℕ => (1 / 2 : ℝ))
            halfStream_nonzero d / Real.sqrt 2) :=
  ⟨halfStream_nonzero, fun i => ⟨by norm_num, by norm_num⟩,
    (claim_C8_sampler (fun _ : ℕ => (1 / 2 : ℝ)) halfStream_nonzero
      (fun i => ⟨by norm_num, by norm_num⟩) 100 1 2).1⟩
